import Mathlib

/-!
# Verification of the resume-to-role skill matcher

Shallow embedding of the core routines of `career_advisor_app/app.py`:
the skill extractor (`extract_skills`), the match scorer (`analyze_resume`),
the course finder (`find_courses`) and the career-path recommender
(`career_path`), together with the built-in fallback catalog
(`create_default_career_data`).

Modelling conventions:
* Python strings are `List Char` (ASCII fragment: the `str.lower` /
  `re.IGNORECASE` / `\w` behaviour is embedded for ASCII characters, which
  covers the whole catalog vocabulary).
* Python sets are modelled as lists up to membership; where the source
  converts a list to a set, `dedup` models the deduplication.
* The one float computation whose value matters, the match percentage
  `int((len(matched_skills) / total_skills) * 100)`, is embedded by an exact
  model of the two correctly-rounded IEEE-754 double operations involved.
  The float score of `career_path`, `len + 0.5 * len`, is exact in double
  precision, and is stored doubled as a natural number, which preserves
  every comparison the source performs on it.
-/

/-- Word character test of Python's regex `\b` / `\w` (ASCII fragment:
letters, digits, underscore). -/
def wordChar (c : Char) : Bool := c.isAlphanum || c == '_'

/-- Lower-casing, modelling Python's `str.lower` / `re.IGNORECASE` (ASCII). -/
def toLowerL (l : List Char) : List Char := l.map Char.toLower

/-- Word-character status of position `i` of `l`; out of range counts as
non-word (string edges behave like non-word characters for `\b`). -/
def wordAt (l : List Char) (i : Nat) : Bool :=
  match l[i]? with
  | some c => wordChar c
  | none => false

/-- Python regex `\b` at gap position `p` (between characters `p - 1` and
`p` of `l`): exactly one of the two sides is a word character. -/
def boundaryAt (l : List Char) (p : Nat) : Bool :=
  (if p = 0 then false else wordAt l (p - 1)) != wordAt l p

/-- `needle` occurs literally in `hay` starting at index `i`. -/
def substrAt (needle hay : List Char) (i : Nat) : Bool :=
  decide ((hay.drop i).take needle.length = needle)

/-- Case-insensitive substring containment, modelling Python's
`skill.lower() in title.lower()` from `find_courses`. -/
def containsSubstr (needle hay : List Char) : Bool :=
  (List.range (hay.length + 1)).any (substrAt (toLowerL needle) (toLowerL hay))

/-- Model of `re.search(r'\b' + re.escape(skill) + r'\b', text,
re.IGNORECASE)` from `extract_skills`.  `re.escape` turns the skill into a
literal pattern, so the search succeeds iff the lowered skill occurs at some
position of the lowered text with a `\b` boundary on both sides (lowering
does not change word-character status, so the boundaries are tested on the
original text). -/
def reWordSearch (skill text : List Char) : Bool :=
  (List.range (text.length + 1)).any (fun i =>
    boundaryAt text i && substrAt (toLowerL skill) (toLowerL text) i &&
      boundaryAt text (i + skill.length))

/-- `extract_skills`' loop over the vocabulary; the Python set of found
skills is modelled as the sub-list of vocabulary entries that match. -/
def extractFrom (voc : List (List Char)) (text : List Char) : List (List Char) :=
  voc.filter (fun skill => reWordSearch skill text)

/-- The spec-side reading of the extractor's match rule: the entry `s` occurs
in `text` at some index `i` as a case-insensitive literal occurrence with a
word boundary on both sides. -/
def IsWholeWordMatch (s text : List Char) : Prop :=
  ∃ i, i + s.length ≤ text.length ∧
    substrAt (toLowerL s) (toLowerL text) i = true ∧
    boundaryAt text i = true ∧ boundaryAt text (i + s.length) = true

/-- `CourseRecord` of the data model (`recommended_courses` entries).  The
`rating` float is only carried through, never computed with; it is stored in
tenths to stay away from floats. -/
structure CourseRecord where
  title : List Char
  platform : List Char
  duration : List Char
  rating10 : Nat
deriving DecidableEq, Repr

/-- The `growth_trend` record: parallel `years` / `demand_index` sequences. -/
structure GrowthTrend where
  years : List Int
  demand_index : List Int
deriving DecidableEq, Repr

/-- `RoleRecord` of the data model.  Fields that never reach the verified
routines (`average_salary`, `job_outlook`, `remote_friendly`,
`top_companies`, `career_paths`) are omitted; the loader guarantees the
listed fields exist on every role that survives validation. -/
structure RoleRecord where
  role : List Char
  category : List Char
  required_skills : List (List Char)
  preferred_skills : List (List Char)
  growth_trend : GrowthTrend
  recommended_courses : List CourseRecord
  experience_level : List Char
deriving DecidableEq, Repr

/-- The catalog-wide skill vocabulary `all_skills` of `extract_skills`:
union of every role's required and preferred skills. -/
def vocabulary (roles : List RoleRecord) : List (List Char) :=
  (roles.flatMap (fun r => r.required_skills ++ r.preferred_skills)).dedup

/-- `extract_skills(text)`: match every vocabulary entry against the text. -/
def extract_skills (roles : List RoleRecord) (text : List Char) : List (List Char) :=
  extractFrom (vocabulary roles) text

/-- `find_courses(skill)`: scan all courses of all roles in catalog order,
keep those whose title contains the skill case-insensitively, cap at 3. -/
def find_courses (roles : List RoleRecord) (skill : List Char) : List CourseRecord :=
  ((roles.flatMap (fun r => r.recommended_courses)).filter
    (fun course => containsSubstr (toLowerL skill) (toLowerL course.title))).take 3

/-- Entry of the improvement plan built in `analyze_resume`. -/
structure ImprovementItem where
  skill : List Char
  priority : List Char
  resources : List CourseRecord
deriving DecidableEq, Repr

/-- The successful response of `analyze_resume`.  The `salary_range` and
`career_paths` fields are copied verbatim from the role record and are
omitted here. -/
structure MatchResult where
  role : List Char
  match_percentage : Nat
  matched_skills : List (List Char)
  missing_required : List (List Char)
  missing_preferred : List (List Char)
  improvement_plan : List ImprovementItem
deriving DecidableEq, Repr

/-- The 404 payload of `analyze_resume` when the target role is unknown. -/
structure RoleNotFound where
  target : List Char
  available_roles : List (List Char)
deriving DecidableEq, Repr

/-!
### IEEE-754 model of `int((len(matched_skills) / total_skills) * 100)`

`analyze_resume` computes the match percentage with Python floats: the
division `m / t` is rounded to the nearest double, the product with `100`
is rounded again, and `int` truncates.  Both operations are correctly
rounded (round to nearest, ties to even) and all operands stay far inside
the normal range, so the model below is exact for every value the program
can produce.  Every arithmetic step uses only kernel-accelerated `Nat`
operations so that concrete instances evaluate by `decide`.
-/

/-- Floor of the base-2 logarithm for `1 ≤ n < 2 ^ 512`, by binary descent
over a fixed list of shift amounts (returns 0 for `n = 0`).  Every number
appearing in the percentage computation is far below `2 ^ 512`. -/
def log2b (n : Nat) : Nat :=
  ([256, 128, 64, 32, 16, 8, 4, 2, 1].foldl
    (fun p k => if 2 ^ k ≤ p.2 then (p.1 + k, p.2 >>> k) else p) (0, n)).1

/-- Round the ratio `a / b` to the nearest integer, ties to even. -/
def rneNat (a b : Nat) : Nat :=
  let q := a / b
  let r := a % b
  if 2 * r < b then q
  else if b < 2 * r then q + 1
  else if q % 2 = 0 then q else q + 1

/-- Round the nonnegative rational `num / den` to a double-precision float,
returned as `(s, k)` representing `s * 2 ^ k` with `2 ^ 52 ≤ s ≤ 2 ^ 53`
(for `num = 0` the significand is 0).  The extra 100 guard bits make the
floor-log2 of the scaled quotient exact. -/
def fl53 (num den : Nat) : Nat × Int :=
  let shift := 100 + log2b den
  let q0 := (num <<< shift) / den
  let k := log2b q0
  if k ≤ 52 + shift then
    (rneNat (num <<< (52 + shift - k)) den, (k : Int) - shift - 52)
  else
    (rneNat num (den <<< (k - 52 - shift)), (k : Int) - shift - 52)

/-- `int((m / t) * 100) if t else 0` as computed by Python on IEEE doubles:
round `m / t` to a double, multiply by 100 and round again, truncate. -/
def py_int_ratio100 (m t : Nat) : Nat :=
  if t = 0 then 0
  else
    let st := fl53 m t
    let st2 :=
      if 0 ≤ st.2 then fl53 (100 * st.1 <<< st.2.toNat) 1
      else fl53 (100 * st.1) (1 <<< (-st.2).toNat)
    if 0 ≤ st2.2 then st2.1 <<< st2.2.toNat else st2.1 >>> (-st2.2).toNat

/-- Priority string `'High'`. -/
def highPriority : List Char := "High".data

/-- Priority string `'Medium'`. -/
def mediumPriority : List Char := "Medium".data

/-- The body of `analyze_resume` once the target role has been resolved to
`role_data` — the spec's `score(extractedSkills, role)`.  `roles` is the
catalog, used by the nested `find_courses` calls. -/
def score_role (roles : List RoleRecord) (resume_skills : List (List Char))
    (role_data : RoleRecord) : MatchResult :=
  let required_skills := role_data.required_skills
  let preferred_skills := role_data.preferred_skills
  let missing_required := required_skills.filter (fun s => !decide (s ∈ resume_skills))
  let missing_preferred := preferred_skills.filter (fun s => !decide (s ∈ resume_skills))
  let matched_skills := (required_skills ++ preferred_skills).filter
    (fun s => decide (s ∈ resume_skills))
  let total_skills := required_skills.length + preferred_skills.length
  let match_percentage := py_int_ratio100 matched_skills.length total_skills
  let improvement_plan :=
    (missing_required.take 3).map (fun skill =>
      { skill := skill, priority := highPriority,
        resources := find_courses roles skill }) ++
    (missing_preferred.take 2).map (fun skill =>
      { skill := skill, priority := mediumPriority,
        resources := find_courses roles skill })
  { role := role_data.role
    match_percentage := match_percentage
    matched_skills := matched_skills
    missing_required := missing_required
    missing_preferred := missing_preferred
    improvement_plan := improvement_plan }

/-- The role lookup at the top of `analyze_resume`: the first catalog entry
whose name equals the target case-insensitively. -/
def findRole? (roles : List RoleRecord) (target_role : List Char) : Option RoleRecord :=
  roles.find? (fun r => decide (toLowerL r.role = toLowerL target_role))

/-- `analyze_resume(resume_skills, target_role)`: resolve the target role,
else return the 404 payload listing all available role names. -/
def analyze_resume (roles : List RoleRecord) (resume_skills : List (List Char))
    (target_role : List Char) : Except RoleNotFound MatchResult :=
  match findRole? roles target_role with
  | none => .error { target := target_role, available_roles := roles.map (fun r => r.role) }
  | some role_data => .ok (score_role roles resume_skills role_data)

/-! ### Career-path recommender (`career_path`) -/

/-- The fixed ordinal scale `level_order = ['Entry', 'Mid', 'Senior', 'Lead']`. -/
def levelOrder : List (List Char) :=
  ["Entry".data, "Mid".data, "Senior".data, "Lead".data]

/-- Python's `level_order.index(x)`, `none` standing for `ValueError`. -/
def levelIdx? (x : List Char) : Option Nat := levelOrder.findIdx? (fun y => y == x)

/-- The separator `' to '` of `experience_level` strings. -/
def sepToL : List Char := " to ".data

/-- Index of the first occurrence of `' to '` in `l`. -/
def firstSep? (l : List Char) : Option Nat :=
  (List.range (l.length + 1)).find? (fun i => substrAt sepToL l i)

/-- Python's `s.split(' to ')`, fuel-based so that the kernel can evaluate
it.  Each recursive call removes the separator (4 characters), so any fuel at
least the length of the remaining string suffices, and with exhausted fuel
the string is empty and the two branches coincide. -/
def splitToAux : Nat → List Char → List (List Char)
  | 0, l => [l]
  | fuel + 1, l =>
    match firstSep? l with
    | none => [l]
    | some i => l.take i :: splitToAux fuel (l.drop (i + 4))

/-- Python's `s.split(' to ')`. -/
def splitTo (l : List Char) : List (List Char) := splitToAux l.length l

/-- The experience-level admission test of `career_path`, mirroring the
`try/except ValueError` around the three `level_order.index` calls and
Python's left-to-right short-circuit evaluation: an index lookup that is
actually executed and raises makes the role pass the filter; but when
`index(experience) < index(min_level)` already holds, the role is excluded
before `index(max_level)` is ever evaluated. -/
def admitsLevel (experience min_level max_level : List Char) : Bool :=
  match levelIdx? experience with
  | none => true
  | some e =>
    match levelIdx? min_level with
    | none => true
    | some mn =>
      if e < mn then false
      else
        match levelIdx? max_level with
        | none => true
        | some mx => !(mx < e)

/-- The per-role experience filter of `career_path`: split
`experience_level` on `' to '`, take the first part as the minimum level and
the last part as the maximum (the minimum again when there is no `' to '`). -/
def admitsRole (experience : List Char) (r : RoleRecord) : Bool :=
  let role_levels := splitTo r.experience_level
  let min_level := role_levels.headD []
  let max_level := if 1 < role_levels.length then role_levels.getLastD [] else min_level
  admitsLevel experience min_level max_level

/-- Twice the match score of `career_path`.  The source computes
`len(matched) + 0.5 * len(preferred & skills)` on floats; halves are exact
in double precision, so storing twice the score as a natural number
preserves every comparison, and in particular `score > 0` iff
`roleScore2 > 0`.  The Python sets `required` / `preferred` are modelled by
`dedup` (only distinct elements are counted by the intersections). -/
def roleScore2 (resume_skills : List (List Char)) (r : RoleRecord) : Nat :=
  2 * (r.required_skills.dedup.filter (fun s => decide (s ∈ resume_skills))).length +
    (r.preferred_skills.dedup.filter (fun s => decide (s ∈ resume_skills))).length

/-- `current_growth`: the last entry of `demand_index`, 100 when the list is
empty (`demand_index[-1] if growth_trend.get('demand_index') else 100`). -/
def currentGrowth (r : RoleRecord) : Int :=
  r.growth_trend.demand_index.getLastD 100

/-- One entry of the `career_path` response (`salary` is copied verbatim
from the role and omitted; `match_score2` stores twice the float score). -/
structure Recommendation where
  role : List Char
  category : List Char
  match_score2 : Nat
  growth : Int
  missing_skills : List (List Char)
  recommended_courses : List CourseRecord
deriving DecidableEq, Repr

/-- Build the `career_path` response entry for one role. -/
def mkRecommendation (resume_skills : List (List Char)) (r : RoleRecord) : Recommendation :=
  { role := r.role
    category := r.category
    match_score2 := roleScore2 resume_skills r
    growth := currentGrowth r
    missing_skills := r.required_skills.dedup.filter (fun s => !decide (s ∈ resume_skills))
    recommended_courses := r.recommended_courses }

/-- The sort order of `recommended_roles.sort(key=lambda x:
(x['match_score'], x['growth']), reverse=True)`: descending lexicographic on
(score, growth).  `recGE a b` holds when `a` may come before `b`. -/
def recGE (a b : Recommendation) : Prop :=
  b.match_score2 < a.match_score2 ∨
    (b.match_score2 = a.match_score2 ∧ b.growth ≤ a.growth)

instance : DecidableRel recGE := fun a b => by unfold recGE; infer_instance

instance : IsTotal Recommendation recGE := ⟨fun a b => by unfold recGE; omega⟩

instance : IsTrans Recommendation recGE := ⟨fun a b c hab hbc => by unfold recGE at *; omega⟩

/-- `career_path(skills, experience)`: keep the roles passing the experience
filter with positive score, build the entries in catalog order, stable-sort
descending by (score, growth) and return the first 5.  Mathlib's
`insertionSort` is a stable sort, so it reproduces Python's stable
`list.sort(..., reverse=True)` exactly. -/
def career_path (roles : List RoleRecord) (resume_skills : List (List Char))
    (experience : List Char) : List Recommendation :=
  let recommended_roles := (roles.filter (fun r =>
    admitsRole experience r && decide (0 < roleScore2 resume_skills r))).map
      (mkRecommendation resume_skills)
  (List.insertionSort recGE recommended_roles).take 5

/-! ### The built-in fallback catalog (`create_default_career_data`) -/

/-- The `Software Engineer` fallback role. -/
def softwareEngineerRole : RoleRecord :=
  { role := "Software Engineer".data
    category := "Technology".data
    required_skills := ["Python".data, "JavaScript".data, "Git".data, "SQL".data]
    preferred_skills := ["React".data, "Node.js".data, "Docker".data, "AWS".data]
    growth_trend := { years := [2020, 2021, 2022, 2023, 2024],
                      demand_index := [85, 90, 95, 100, 105] }
    recommended_courses := [{ title := "Complete Python Bootcamp".data,
                              platform := "Udemy".data,
                              duration := "40 hours".data, rating10 := 46 }]
    experience_level := "Entry to Senior".data }

/-- The `Data Scientist` fallback role. -/
def dataScientistRole : RoleRecord :=
  { role := "Data Scientist".data
    category := "Data & Analytics".data
    required_skills := ["Python".data, "Statistics".data, "Machine Learning".data, "SQL".data]
    preferred_skills := ["R".data, "TensorFlow".data, "Tableau".data, "AWS".data]
    growth_trend := { years := [2020, 2021, 2022, 2023, 2024],
                      demand_index := [80, 85, 92, 98, 103] }
    recommended_courses := [{ title := "Data Science Specialization".data,
                              platform := "Coursera".data,
                              duration := "60 hours".data, rating10 := 45 }]
    experience_level := "Entry to Senior".data }

/-- The fallback catalog. -/
def default_career_roles : List RoleRecord := [softwareEngineerRole, dataScientistRole]

/-! ### Concrete inputs used by counterexamples and witnesses -/

/-- A role with 50 required skills (the distinct names `a`, `aa`, `aaa`, …),
used to exhibit the float rounding of the match percentage. -/
def percRole : RoleRecord :=
  { role := "Perc".data
    category := "Test".data
    required_skills := (List.range 50).map (fun i => List.replicate (i + 1) 'a')
    preferred_skills := []
    growth_trend := { years := [], demand_index := [] }
    recommended_courses := []
    experience_level := "Entry".data }

/-- 29 of the 50 skills of `percRole`. -/
def percSkills : List (List Char) := (List.range 29).map (fun i => List.replicate (i + 1) 'a')

/-- A role listing the same skill as both required and preferred. -/
def dupRole : RoleRecord :=
  { role := "Dup".data
    category := "Test".data
    required_skills := ["Python".data]
    preferred_skills := ["Python".data]
    growth_trend := { years := [], demand_index := [] }
    recommended_courses := []
    experience_level := "Entry".data }

/-- A role with no required and no preferred skills. -/
def emptyRole : RoleRecord :=
  { role := "Empty".data
    category := "Test".data
    required_skills := []
    preferred_skills := []
    growth_trend := { years := [], demand_index := [] }
    recommended_courses := []
    experience_level := "Entry".data }

/-! ### Helper lemmas -/

theorem rneNat_zero (b : Nat) : rneNat 0 b = 0 := by
  unfold rneNat
  simp

theorem log2b_zero : log2b 0 = 0 := by decide

theorem fl53_zero_num (d : Nat) : (fl53 0 d).1 = 0 := by
  unfold fl53
  simp [Nat.zero_shiftLeft, Nat.zero_div, log2b_zero, rneNat_zero]

theorem py_int_ratio100_zero_left (t : Nat) : py_int_ratio100 0 t = 0 := by
  unfold py_int_ratio100
  rcases Nat.eq_zero_or_pos t with rfl | ht
  · simp
  · have h1 : (fl53 0 t).1 = 0 := fl53_zero_num t
    simp only [Nat.pos_iff_ne_zero.mp ht, if_false, h1, Nat.zero_shiftLeft, Nat.mul_zero]
    by_cases hc : (0 : Int) ≤ (fl53 0 t).2 <;>
      simp only [hc, if_true, if_false, fl53_zero_num] <;>
      split <;> simp [Nat.zero_shiftLeft, Nat.zero_shiftRight, fl53_zero_num]

set_option maxRecDepth 4000 in
set_option maxHeartbeats 4000000 in
/-- The double-precision percentage agrees with the exact floor for every
denominator below 50 (checked exhaustively; 29/50 is the first divergence). -/
theorem pct_eq_floor_below_50 :
    ∀ t, t < 50 → ∀ m, m < t + 1 → py_int_ratio100 m t = 100 * m / t := by decide

/-- Rounding to nearest never exceeds the exact ratio by more than half:
2·b·rne(a/b) ≤ 2·a + b. -/
theorem rneNat_le_half (a b : Nat) (hb : 0 < b) : 2 * b * rneNat a b ≤ 2 * a + b := by
  have hdm : b * (a / b) + a % b = a := Nat.div_add_mod a b
  have hml : a % b < b := Nat.mod_lt a hb
  have hq : 2 * (b * (a / b)) ≤ 2 * a := by omega
  simp only [rneNat]
  split_ifs with h1 h2 h3
  · calc 2 * b * (a / b) = 2 * (b * (a / b)) := by ring
    _ ≤ 2 * a := hq
    _ ≤ 2 * a + b := Nat.le_add_right _ _
  · have hb2 : b ≤ 2 * (a % b) := by omega
    calc 2 * b * (a / b + 1) = 2 * (b * (a / b)) + 2 * b := by ring
    _ ≤ 2 * (b * (a / b)) + 2 * (a % b) + b := by omega
    _ = 2 * (b * (a / b) + a % b) + b := by ring
    _ = 2 * a + b := by rw [hdm]
  · calc 2 * b * (a / b) = 2 * (b * (a / b)) := by ring
    _ ≤ 2 * a := hq
    _ ≤ 2 * a + b := Nat.le_add_right _ _
  · have hb2 : b ≤ 2 * (a % b) := by omega
    calc 2 * b * (a / b + 1) = 2 * (b * (a / b)) + 2 * b := by ring
    _ ≤ 2 * (b * (a / b)) + 2 * (a % b) + b := by omega
    _ = 2 * (b * (a / b) + a % b) + b := by ring
    _ = 2 * a + b := by rw [hdm]

/-- Invariant of the binary descent of `log2b`: the残 value stays positive
and value·2^acc never exceeds the input. -/
theorem log2b_invariant (ks : List Nat) (p : Nat × Nat) (n : Nat)
    (h1 : 1 ≤ p.2) (h2 : p.2 * 2 ^ p.1 ≤ n) :
    1 ≤ (ks.foldl (fun p k => if 2 ^ k ≤ p.2 then (p.1 + k, p.2 >>> k) else p) p).2 ∧
    (ks.foldl (fun p k => if 2 ^ k ≤ p.2 then (p.1 + k, p.2 >>> k) else p) p).2 *
      2 ^ (ks.foldl (fun p k => if 2 ^ k ≤ p.2 then (p.1 + k, p.2 >>> k) else p) p).1 ≤ n := by
  induction ks generalizing p with
  | nil => exact ⟨h1, h2⟩
  | cons k ks ih =>
    simp only [List.foldl_cons]
    by_cases hk : 2 ^ k ≤ p.2
    · rw [if_pos hk]
      apply ih
      · have : 1 ≤ p.2 / 2 ^ k := (Nat.one_le_div_iff (Nat.pos_pow_of_pos k (by norm_num))).mpr hk
        simpa [Nat.shiftRight_eq_div_pow] using this
      · show p.2 >>> k * 2 ^ (p.1 + k) ≤ n
        rw [Nat.shiftRight_eq_div_pow, pow_add]
        calc p.2 / 2 ^ k * (2 ^ p.1 * 2 ^ k) = p.2 / 2 ^ k * 2 ^ k * 2 ^ p.1 := by ring
        _ ≤ p.2 * 2 ^ p.1 := Nat.mul_le_mul_right _ (Nat.div_mul_le_self _ _)
        _ ≤ n := h2
    · rw [if_neg hk]
      exact ih p h1 h2

/-- Lower correctness of `log2b`: 2^(log2b n) ≤ n for every positive n. -/
theorem log2b_le_self (n : Nat) (hn : 1 ≤ n) : 2 ^ log2b n ≤ n := by
  have h := log2b_invariant [256, 128, 64, 32, 16, 8, 4, 2, 1] (0, n) n (by simpa using hn) (by simp)
  unfold log2b
  calc 2 ^ ([256, 128, 64, 32, 16, 8, 4, 2, 1].foldl
        (fun p k => if 2 ^ k ≤ p.2 then (p.1 + k, p.2 >>> k) else p) (0, n)).1
      ≤ ([256, 128, 64, 32, 16, 8, 4, 2, 1].foldl
        (fun p k => if 2 ^ k ≤ p.2 then (p.1 + k, p.2 >>> k) else p) (0, n)).2 *
        2 ^ ([256, 128, 64, 32, 16, 8, 4, 2, 1].foldl
        (fun p k => if 2 ^ k ≤ p.2 then (p.1 + k, p.2 >>> k) else p) (0, n)).1 :=
        Nat.le_mul_of_pos_left _ h.1
  _ ≤ n := h.2

/-- When the numerator is at most B·den with B < 2^b ≤ 2^52, `fl53` always
takes its dividing branch, with a significand scale of at least 52 − b
fractional bits. -/
theorem fl53_eq (num den B b : Nat) (hden : 0 < den) (hnum : num ≤ B * den)
    (hBb : B < 2 ^ b) (hb : b ≤ 52) :
    ∃ e : Nat, 52 - b ≤ e ∧
      fl53 num den = (rneNat (num <<< e) den, -(e : Int)) := by
  unfold fl53
  have hq0le : (num <<< (100 + log2b den)) / den < 2 ^ (b + (100 + log2b den)) := by
    calc (num <<< (100 + log2b den)) / den
        = num * 2 ^ (100 + log2b den) / den := by rw [Nat.shiftLeft_eq]
    _ ≤ den * (B * 2 ^ (100 + log2b den)) / den := by
        apply Nat.div_le_div_right
        calc num * 2 ^ (100 + log2b den) ≤ B * den * 2 ^ (100 + log2b den) :=
              Nat.mul_le_mul_right _ hnum
        _ = den * (B * 2 ^ (100 + log2b den)) := by ring
    _ = B * 2 ^ (100 + log2b den) := Nat.mul_div_cancel_left _ hden
    _ < 2 ^ b * 2 ^ (100 + log2b den) :=
        Nat.mul_lt_mul_of_lt_of_le hBb (le_refl _) (Nat.pos_pow_of_pos _ (by norm_num))
    _ = 2 ^ (b + (100 + log2b den)) := (pow_add 2 b _).symm
  have hkle : log2b ((num <<< (100 + log2b den)) / den) ≤ b + (100 + log2b den) := by
    rcases Nat.eq_zero_or_pos ((num <<< (100 + log2b den)) / den) with h0 | hpos
    · rw [h0, log2b_zero]; omega
    · have hlow := log2b_le_self _ hpos
      by_contra hcon
      push_neg at hcon
      have : 2 ^ (b + (100 + log2b den)) < 2 ^ log2b ((num <<< (100 + log2b den)) / den) :=
        Nat.pow_lt_pow_right (by norm_num) hcon
      omega
  have hbranch : log2b ((num <<< (100 + log2b den)) / den) ≤ 52 + (100 + log2b den) := by
    omega
  rw [if_pos hbranch]
  refine ⟨52 + (100 + log2b den) - log2b ((num <<< (100 + log2b den)) / den), by omega, ?_⟩
  simp only [Prod.mk.injEq, true_and]
  omega

/-- The double-precision percentage never exceeds 100 when m ≤ t. -/
theorem py_int_ratio100_le_100 (m t : Nat) (hmt : m ≤ t) : py_int_ratio100 m t ≤ 100 := by
  unfold py_int_ratio100
  rcases Nat.eq_zero_or_pos t with rfl | ht
  · simp
  · rw [if_neg (Nat.pos_iff_ne_zero.mp ht)]
    obtain ⟨e₁, he₁, hfl1⟩ := fl53_eq m t 1 1 ht (by omega) (by norm_num) (by norm_num)
    have hneg1 : ¬ (0 : Int) ≤ -(e₁ : Int) := by omega
    rw [hfl1]
    simp only [neg_neg, Int.toNat_natCast, if_neg hneg1, Nat.one_shiftLeft]
    have hs1le : rneNat (m <<< e₁) t ≤ 2 ^ e₁ := by
      have h := rneNat_le_half (m <<< e₁) t ht
      rw [Nat.shiftLeft_eq] at h
      have hmm : m * 2 ^ e₁ ≤ t * 2 ^ e₁ := Nat.mul_le_mul_right _ hmt
      have h3 : t * (2 * rneNat (m * 2 ^ e₁) t) ≤ t * (2 * 2 ^ e₁ + 1) := by
        calc t * (2 * rneNat (m * 2 ^ e₁) t) = 2 * t * rneNat (m * 2 ^ e₁) t := by ring
        _ ≤ 2 * (m * 2 ^ e₁) + t := h
        _ ≤ 2 * (t * 2 ^ e₁) + t := by omega
        _ = t * (2 * 2 ^ e₁ + 1) := by ring
      have h4 := Nat.le_of_mul_le_mul_left h3 ht
      rw [Nat.shiftLeft_eq]
      omega
    obtain ⟨e₂, he₂, hfl2⟩ := fl53_eq (100 * rneNat (m <<< e₁) t) (2 ^ e₁) 100 7
      (Nat.pos_pow_of_pos _ (by norm_num))
      (Nat.mul_le_mul_left 100 hs1le) (by norm_num) (by norm_num)
    have hneg2 : ¬ (0 : Int) ≤ -(e₂ : Int) := by omega
    rw [hfl2]
    simp only [neg_neg, Int.toNat_natCast, if_neg hneg2, Nat.shiftRight_eq_div_pow]
    have h := rneNat_le_half ((100 * rneNat (m <<< e₁) t) <<< e₂) (2 ^ e₁)
      (Nat.pos_pow_of_pos _ (by norm_num))
    rw [Nat.shiftLeft_eq] at h
    have hprod : 100 * rneNat (m <<< e₁) t * 2 ^ e₂ ≤ 100 * 2 ^ e₁ * 2 ^ e₂ :=
      Nat.mul_le_mul_right _ (Nat.mul_le_mul_left 100 hs1le)
    have h3 : 2 ^ e₁ * (2 * rneNat (100 * rneNat (m <<< e₁) t * 2 ^ e₂) (2 ^ e₁)) ≤
        2 ^ e₁ * (200 * 2 ^ e₂ + 1) := by
      calc 2 ^ e₁ * (2 * rneNat (100 * rneNat (m <<< e₁) t * 2 ^ e₂) (2 ^ e₁))
          = 2 * 2 ^ e₁ * rneNat (100 * rneNat (m <<< e₁) t * 2 ^ e₂) (2 ^ e₁) := by ring
      _ ≤ 2 * (100 * rneNat (m <<< e₁) t * 2 ^ e₂) + 2 ^ e₁ := h
      _ ≤ 2 * (100 * 2 ^ e₁ * 2 ^ e₂) + 2 ^ e₁ := by omega
      _ = 2 ^ e₁ * (200 * 2 ^ e₂ + 1) := by ring
    have h4 := Nat.le_of_mul_le_mul_left h3 (Nat.pos_pow_of_pos _ (by norm_num))
    have h5 : rneNat (100 * rneNat (m <<< e₁) t * 2 ^ e₂) (2 ^ e₁) ≤ 100 * 2 ^ e₂ := by
      omega
    have hshl : (100 * rneNat (m <<< e₁) t) <<< e₂ = 100 * rneNat (m <<< e₁) t * 2 ^ e₂ :=
      Nat.shiftLeft_eq _ _
    rw [hshl]
    calc rneNat (100 * rneNat (m <<< e₁) t * 2 ^ e₂) (2 ^ e₁) / 2 ^ e₂
        ≤ 100 * 2 ^ e₂ / 2 ^ e₂ := Nat.div_le_div_right h5
    _ = 100 := Nat.mul_div_cancel 100 (Nat.pos_pow_of_pos _ (by norm_num))

/-! ### Claims -/

/-- C1 (counterexample): at a role with 50 required skills of which 29 are
extracted, the percentage computed on doubles is 57, but
floor(100 * 29 / 50) = 58: the claimed floor identity fails. -/
theorem C1_counterexample :
    (score_role [] percSkills percRole).match_percentage ≠
      100 * (score_role [] percSkills percRole).matched_skills.length /
        (percRole.required_skills.length + percRole.preferred_skills.length) := by decide

/-- C1 (amended): the match percentage always lies in [0, 100] and equals 0
whenever the role has no required or preferred skills; it equals
floor(100 × |matchedSkills| / (|requiredSkills| + |preferredSkills|))
whenever that combined count is at most 49 — the floor identity first fails
at 29 matched of 50 combined skills (see the counterexample), where the
double-precision evaluation returns 57 instead of 58. -/
theorem C1_theorem (roles : List RoleRecord) (resume_skills : List (List Char))
    (r : RoleRecord) :
    (score_role roles resume_skills r).match_percentage ≤ 100 ∧
    (r.required_skills.length + r.preferred_skills.length = 0 →
      (score_role roles resume_skills r).match_percentage = 0) ∧
    (r.required_skills.length + r.preferred_skills.length ≤ 49 →
      (score_role roles resume_skills r).match_percentage =
        100 * (score_role roles resume_skills r).matched_skills.length /
          (r.required_skills.length + r.preferred_skills.length)) := by
  have hm : (score_role roles resume_skills r).matched_skills.length ≤
      r.required_skills.length + r.preferred_skills.length := by
    have := List.length_filter_le (fun s => decide (s ∈ resume_skills))
      (r.required_skills ++ r.preferred_skills)
    simpa [score_role, List.length_append] using this
  have hpct : (score_role roles resume_skills r).match_percentage =
      py_int_ratio100 (score_role roles resume_skills r).matched_skills.length
        (r.required_skills.length + r.preferred_skills.length) := rfl
  refine ⟨?_, fun h0 => ?_, fun hb => ?_⟩
  · rw [hpct]
    exact py_int_ratio100_le_100 _ _ hm
  · rw [hpct, h0, py_int_ratio100]
    simp
  · rcases Nat.eq_zero_or_pos (r.required_skills.length + r.preferred_skills.length)
      with ht0 | htpos
    · rw [hpct, ht0, py_int_ratio100]
      simp
    · rw [hpct]
      exact pct_eq_floor_below_50 _ (by omega) _ (by omega)

/-- C1 (witness): the amended theorem at the fallback Software Engineer role
with extracted skills {Python} (1 matched of 8 gives 12 and is within
[0, 100]) and at a role with no skills at all (percentage 0). -/
theorem C1_witness :
    (score_role [] ["Python".data] softwareEngineerRole).match_percentage ≤ 100 ∧
    (score_role [] ["Python".data] softwareEngineerRole).match_percentage =
      100 * (score_role [] ["Python".data] softwareEngineerRole).matched_skills.length /
        (softwareEngineerRole.required_skills.length +
          softwareEngineerRole.preferred_skills.length) ∧
    (score_role [] [] emptyRole).match_percentage = 0 :=
  ⟨(C1_theorem [] ["Python".data] softwareEngineerRole).1,
   (C1_theorem [] ["Python".data] softwareEngineerRole).2.2 (by decide),
   (C1_theorem [] [] emptyRole).2.1 (by decide)⟩

/-- C2 (counterexample): for a role listing Python as both required and
preferred and extracted skills {Python}, the returned matched list contains
Python twice — it is not deduplicated as the claim states. -/
theorem C2_counterexample :
    ¬ (score_role [] ["Python".data] dupRole).matched_skills.Nodup := by decide

/-- C2 (amended): matchedSkills is the required-then-preferred concatenation
filtered to the extracted skills — order preserved, but duplicates retained
when a skill occurs in both sequences. -/
theorem C2_theorem (roles : List RoleRecord) (resume_skills : List (List Char))
    (r : RoleRecord) :
    (score_role roles resume_skills r).matched_skills =
      (r.required_skills ++ r.preferred_skills).filter
        (fun s => decide (s ∈ resume_skills)) ∧
    (score_role roles resume_skills r).matched_skills.Sublist
      (r.required_skills ++ r.preferred_skills) ∧
    ∀ s, s ∈ (score_role roles resume_skills r).matched_skills ↔
      (s ∈ r.required_skills ++ r.preferred_skills ∧ s ∈ resume_skills) := by
  refine ⟨rfl, List.filter_sublist _, fun s => ?_⟩
  simp [score_role, List.mem_filter]
  tauto

/-- C2 (witness): the amended theorem at the fallback Software Engineer role
with extracted skills {Python}. -/
theorem C2_witness :
    (score_role [] ["Python".data] softwareEngineerRole).matched_skills =
      (softwareEngineerRole.required_skills ++ softwareEngineerRole.preferred_skills).filter
        (fun s => decide (s ∈ ["Python".data])) ∧
    ("Python".data ∈ (score_role [] ["Python".data] softwareEngineerRole).matched_skills ↔
      ("Python".data ∈ softwareEngineerRole.required_skills ++
          softwareEngineerRole.preferred_skills ∧
        "Python".data ∈ ["Python".data])) :=
  ⟨(C2_theorem [] ["Python".data] softwareEngineerRole).1,
   (C2_theorem [] ["Python".data] softwareEngineerRole).2.2 "Python".data⟩

/-- C3 (counterexample): the vocabulary entry `C++`, embedded verbatim as the
whole text, is not detected: `re.escape` keeps `+` literal but the trailing
`\b` requires a word character after it, and there is none. -/
theorem C3_counterexample :
    "C++".data ∉ extractFrom ["C++".data] "C++".data := by decide

/-- C3 (amended): a vocabulary entry whose first and last characters are word
characters is always detected when embedded verbatim (entries beginning or
ending with non-word characters, such as `C++`, can fail the `\b` test). -/
theorem C3_theorem (V : List (List Char)) (s : List Char) (hs : s ∈ V)
    (hne : s ≠ []) (hhead : wordChar (s.head hne) = true)
    (hlast : wordChar (s.getLast hne) = true) :
    s ∈ extractFrom V s := by
  unfold extractFrom
  rw [List.mem_filter]
  refine ⟨hs, ?_⟩
  unfold reWordSearch
  rw [List.any_eq_true]
  refine ⟨0, by simp, ?_⟩
  have hlen : s.length ≠ 0 := by
    simpa [List.length_eq_zero] using hne
  have hw0 : wordAt s 0 = true := by
    obtain ⟨a, l2, rfl⟩ := List.exists_cons_of_ne_nil hne
    simpa [wordAt] using hhead
  have hwlast : wordAt s (s.length - 1) = true := by
    have hg : s[s.length - 1]? = some (s.getLast hne) := by
      rw [List.getLast_eq_getElem]
      exact List.getElem?_eq_getElem (by omega)
    simp [wordAt, hg, hlast]
  have hwend : wordAt s s.length = false := by
    have hg : s[s.length]? = none := by simp
    simp [wordAt, hg]
  have hb0 : boundaryAt s 0 = true := by
    simp [boundaryAt, hw0]
  have hbend : boundaryAt s s.length = true := by
    simp only [boundaryAt, if_neg hlen, hwlast, hwend]
    rfl
  have hsub : substrAt (toLowerL s) (toLowerL s) 0 = true := by
    simp [substrAt, toLowerL]
  simp [Nat.zero_add, hb0, hbend, hsub]

/-- C3 (witness): the amended theorem at `Python` over the singleton
vocabulary {Python}. -/
theorem C3_witness :
    "Python".data ≠ ([] : List Char) ∧
    "Python".data ∈ extractFrom ["Python".data] "Python".data :=
  ⟨by decide,
   C3_theorem ["Python".data] "Python".data (by decide) (by decide) (by decide) (by decide)⟩

theorem reWordSearch_iff (s text : List Char) :
    reWordSearch s text = true ↔ IsWholeWordMatch s text := by
  unfold reWordSearch IsWholeWordMatch
  rw [List.any_eq_true]
  constructor
  · rintro ⟨i, hi, hcond⟩
    rw [List.mem_range] at hi
    rw [Bool.and_eq_true, Bool.and_eq_true] at hcond
    obtain ⟨⟨h1, h2⟩, h3⟩ := hcond
    refine ⟨i, ?_, h2, h1, h3⟩
    have hlen : ((toLowerL text).drop i).take (toLowerL s).length = toLowerL s := by
      simpa [substrAt] using h2
    have := congrArg List.length hlen
    simp [List.length_take, List.length_drop, toLowerL] at this
    omega
  · rintro ⟨i, hi, h2, h1, h3⟩
    refine ⟨i, List.mem_range.mpr (by omega), ?_⟩
    rw [Bool.and_eq_true, Bool.and_eq_true]
    exact ⟨⟨h1, h2⟩, h3⟩

/-- C4: a vocabulary entry is extracted iff it occurs in the text as a
case-insensitive whole-word literal match (word boundary on both sides);
in particular `extract("PYTHON", {Python}) = {Python}` and
`extract("Pythonic", {Python}) = {}`. -/
theorem C4_theorem :
    (∀ (V : List (List Char)) (text s : List Char),
      s ∈ extractFrom V text ↔ s ∈ V ∧ IsWholeWordMatch s text) ∧
    extractFrom ["Python".data] "PYTHON".data = ["Python".data] ∧
    extractFrom ["Python".data] "Pythonic".data = [] := by
  refine ⟨fun V text s => ?_, by decide, by decide⟩
  unfold extractFrom
  rw [List.mem_filter, reWordSearch_iff]

/-- C5: `missing_required` / `missing_preferred` are the role's sequences
filtered to the skills absent from the extracted set, order preserved, and
`missing_required` is disjoint from the extracted skills. -/
theorem C5_theorem (roles : List RoleRecord) (resume_skills : List (List Char))
    (r : RoleRecord) :
    (score_role roles resume_skills r).missing_required =
      r.required_skills.filter (fun s => !decide (s ∈ resume_skills)) ∧
    (score_role roles resume_skills r).missing_preferred =
      r.preferred_skills.filter (fun s => !decide (s ∈ resume_skills)) ∧
    (score_role roles resume_skills r).missing_required.Sublist r.required_skills ∧
    (score_role roles resume_skills r).missing_preferred.Sublist r.preferred_skills ∧
    ∀ s, s ∈ (score_role roles resume_skills r).missing_required → s ∉ resume_skills := by
  refine ⟨rfl, rfl, List.filter_sublist _, List.filter_sublist _, fun s hmem => ?_⟩
  have := (List.mem_filter.mp hmem).2
  simpa using this

/-- C5 (witness): at the fallback Software Engineer role with extracted
skills {Python}, the missing required skill SQL is not an extracted skill. -/
theorem C5_witness :
    "SQL".data ∈ (score_role [] ["Python".data] softwareEngineerRole).missing_required ∧
    "SQL".data ∉ ["Python".data] :=
  ⟨by decide,
   (C5_theorem [] ["Python".data] softwareEngineerRole).2.2.2.2 "SQL".data (by decide)⟩

/-- C6: the improvement plan is the first 3 missing required skills tagged
High followed by the first 2 missing preferred skills tagged Medium, each
with at most 3 courses, never more than 5 entries; with empty extracted
skills the plan is built from the role's own sequences and the match
percentage is 0. -/
theorem C6_theorem (roles : List RoleRecord) (resume_skills : List (List Char))
    (r : RoleRecord) :
    (score_role roles resume_skills r).improvement_plan =
      ((score_role roles resume_skills r).missing_required.take 3).map (fun skill =>
        { skill := skill, priority := highPriority,
          resources := find_courses roles skill }) ++
      ((score_role roles resume_skills r).missing_preferred.take 2).map (fun skill =>
        { skill := skill, priority := mediumPriority,
          resources := find_courses roles skill }) ∧
    (score_role roles resume_skills r).improvement_plan.length ≤ 5 ∧
    ((score_role roles resume_skills r).improvement_plan.all
      (fun item => decide (item.resources.length ≤ 3))) = true ∧
    (score_role roles [] r).improvement_plan =
      (r.required_skills.take 3).map (fun skill =>
        { skill := skill, priority := highPriority,
          resources := find_courses roles skill }) ++
      (r.preferred_skills.take 2).map (fun skill =>
        { skill := skill, priority := mediumPriority,
          resources := find_courses roles skill }) ∧
    (score_role roles [] r).match_percentage = 0 := by
  have hfind : ∀ skill, (find_courses roles skill).length ≤ 3 :=
    fun skill => List.length_take_le 3 _
  refine ⟨rfl, ?_, ?_, ?_, ?_⟩
  · have h1 := List.length_take_le 3 (score_role roles resume_skills r).missing_required
    have h2 := List.length_take_le 2 (score_role roles resume_skills r).missing_preferred
    rw [show (score_role roles resume_skills r).improvement_plan =
        ((score_role roles resume_skills r).missing_required.take 3).map (fun skill =>
          { skill := skill, priority := highPriority,
            resources := find_courses roles skill }) ++
        ((score_role roles resume_skills r).missing_preferred.take 2).map (fun skill =>
          { skill := skill, priority := mediumPriority,
            resources := find_courses roles skill }) from rfl,
      List.length_append, List.length_map, List.length_map]
    omega
  · rw [List.all_eq_true]
    intro item hitem
    rw [show (score_role roles resume_skills r).improvement_plan =
        ((score_role roles resume_skills r).missing_required.take 3).map (fun skill =>
          { skill := skill, priority := highPriority,
            resources := find_courses roles skill }) ++
        ((score_role roles resume_skills r).missing_preferred.take 2).map (fun skill =>
          { skill := skill, priority := mediumPriority,
            resources := find_courses roles skill }) from rfl] at hitem
    rcases List.mem_append.mp hitem with hmem | hmem <;>
      · obtain ⟨skill, _, rfl⟩ := List.mem_map.mp hmem
        simpa using hfind skill
  · have hfilter : ∀ l : List (List Char),
        l.filter (fun s => !decide (s ∈ ([] : List (List Char)))) = l := by
      intro l
      apply List.filter_eq_self.mpr
      intro a _
      simp
    show ((r.required_skills.filter
        (fun s => !decide (s ∈ ([] : List (List Char))))).take 3).map _ ++
      ((r.preferred_skills.filter
        (fun s => !decide (s ∈ ([] : List (List Char))))).take 2).map _ = _
    rw [hfilter, hfilter]
  · have hmatched : ((r.required_skills ++ r.preferred_skills).filter
        (fun s => decide (s ∈ ([] : List (List Char))))) = [] := by
      apply List.filter_eq_nil_iff.mpr
      intro a _
      simp
    show py_int_ratio100 ((r.required_skills ++ r.preferred_skills).filter
        (fun s => decide (s ∈ ([] : List (List Char))))).length _ = 0
    rw [hmatched]
    exact py_int_ratio100_zero_left _

/-- C7: the target role is resolved by exact case-insensitive name
comparison (so `software engineer` resolves to `Software Engineer`), and an
unresolved name produces the error payload carrying all available role
names, with no match result. -/
theorem C7_theorem :
    (∀ (roles : List RoleRecord) (target : List Char) (r : RoleRecord),
      findRole? roles target = some r → toLowerL r.role = toLowerL target ∧ r ∈ roles) ∧
    (∀ (roles : List RoleRecord) (resume_skills : List (List Char)) (target : List Char),
      findRole? roles target = none →
        analyze_resume roles resume_skills target =
          .error { target := target, available_roles := roles.map (fun r => r.role) }) ∧
    findRole? default_career_roles "software engineer".data = some softwareEngineerRole ∧
    analyze_resume default_career_roles ["Python".data] "software engineer".data =
      .ok (score_role default_career_roles ["Python".data] softwareEngineerRole) := by
  refine ⟨fun roles target r h => ?_, fun roles resume_skills target h => ?_, rfl, rfl⟩
  · have h1 := List.find?_some h
    have h2 := List.mem_of_find?_eq_some h
    exact ⟨by simpa using h1, h2⟩
  · unfold analyze_resume
    rw [h]

/-- C7 (witness): the resolution facts at the fallback catalog: lowercase
lookup resolves to the Software Engineer record, and an unknown target
produces the error payload listing both available role names. -/
theorem C7_witness :
    (toLowerL softwareEngineerRole.role = toLowerL "software engineer".data ∧
      softwareEngineerRole ∈ default_career_roles) ∧
    analyze_resume default_career_roles [] "Astronaut".data =
      .error { target := "Astronaut".data,
               available_roles := ["Software Engineer".data, "Data Scientist".data] } :=
  ⟨C7_theorem.1 default_career_roles "software engineer".data softwareEngineerRole rfl,
   C7_theorem.2.1 default_career_roles [] "Astronaut".data rfl⟩

/-- C8: `career_path` returns at most 5 entries, sorted descending by
(score, growth), never includes a zero-score role; scores are the
required-intersection count plus half the preferred-intersection count
(stored doubled in `match_score2`), and growth is the last demand index,
100 when the series is empty. -/
theorem C8_theorem (roles : List RoleRecord) (resume_skills : List (List Char))
    (experience : List Char) :
    (career_path roles resume_skills experience).length ≤ 5 ∧
    List.Pairwise recGE (career_path roles resume_skills experience) ∧
    (∀ x, x ∈ career_path roles resume_skills experience →
      0 < x.match_score2 ∧ ∃ r, r ∈ roles ∧ x = mkRecommendation resume_skills r) ∧
    (∀ r : RoleRecord,
      (mkRecommendation resume_skills r).match_score2 =
        2 * (r.required_skills.dedup.filter (fun s => decide (s ∈ resume_skills))).length +
          (r.preferred_skills.dedup.filter (fun s => decide (s ∈ resume_skills))).length ∧
      (mkRecommendation resume_skills r).growth = currentGrowth r) ∧
    (∀ r : RoleRecord, r.growth_trend.demand_index = [] → currentGrowth r = 100) ∧
    (∀ (r : RoleRecord) (l : List Int) (x : Int),
      r.growth_trend.demand_index = l ++ [x] → currentGrowth r = x) := by
  refine ⟨List.length_take_le 5 _, ?_, fun x hx => ?_, fun r => ⟨rfl, rfl⟩,
    fun r h => ?_, fun r l x h => ?_⟩
  · exact List.Pairwise.sublist (List.take_sublist 5 _)
      (List.sorted_insertionSort recGE _)
  · have hx1 : x ∈ List.insertionSort recGE ((roles.filter (fun r =>
        admitsRole experience r && decide (0 < roleScore2 resume_skills r))).map
          (mkRecommendation resume_skills)) := List.mem_of_mem_take hx
    have hx2 := (List.perm_insertionSort recGE _).subset hx1
    obtain ⟨r, hr, rfl⟩ := List.mem_map.mp hx2
    obtain ⟨hrroles, hpred⟩ := List.mem_filter.mp hr
    rw [Bool.and_eq_true] at hpred
    have hscore : 0 < roleScore2 resume_skills r := by
      simpa using hpred.2
    exact ⟨hscore, r, hrroles, rfl⟩
  · unfold currentGrowth
    rw [h]
    rfl
  · unfold currentGrowth
    rw [h, List.getLastD_concat]

/-- C8 (witness): with the fallback catalog, extracted skills {Python} and
experience Entry, the Software Engineer recommendation is returned with
positive score, and its growth is the most recent demand index 105. -/
theorem C8_witness :
    (0 < (mkRecommendation ["Python".data] softwareEngineerRole).match_score2 ∧
      ∃ r, r ∈ default_career_roles ∧
        mkRecommendation ["Python".data] softwareEngineerRole =
          mkRecommendation ["Python".data] r) ∧
    currentGrowth softwareEngineerRole = 105 :=
  ⟨(C8_theorem default_career_roles ["Python".data] "Entry".data).2.2.1
      (mkRecommendation ["Python".data] softwareEngineerRole) (by decide),
   (C8_theorem default_career_roles ["Python".data] "Entry".data).2.2.2.2.2
      softwareEngineerRole [85, 90, 95, 100] 105 rfl⟩

/-- C9: `find_courses` returns at most 3 courses, each of whose titles
contains the skill case-insensitively, in first-encountered catalog order
(a prefix of the filtered role-order/course-order scan), and returns the
empty list exactly when no course title matches. -/
theorem C9_theorem (roles : List RoleRecord) (skill : List Char) :
    find_courses roles skill =
      ((roles.flatMap (fun r => r.recommended_courses)).filter
        (fun course => containsSubstr (toLowerL skill) (toLowerL course.title))).take 3 ∧
    (find_courses roles skill).length ≤ 3 ∧
    ((find_courses roles skill).all
      (fun course => containsSubstr (toLowerL skill) (toLowerL course.title))) = true ∧
    (find_courses roles skill).Sublist (roles.flatMap (fun r => r.recommended_courses)) ∧
    (find_courses roles skill = [] ↔
      ((roles.flatMap (fun r => r.recommended_courses)).all
        (fun course => !containsSubstr (toLowerL skill) (toLowerL course.title))) = true) := by
  refine ⟨rfl, List.length_take_le 3 _, ?_, ?_, ?_⟩
  · rw [List.all_eq_true]
    intro course hc
    exact (List.mem_filter.mp (List.mem_of_mem_take hc)).2
  · exact (List.take_sublist 3 _).trans (List.filter_sublist _)
  · rw [List.all_eq_true]
    unfold find_courses
    rw [List.take_eq_nil_iff]
    constructor
    · rintro (h3 | hnil)
      · omega
      · intro course hc
        have := List.filter_eq_nil_iff.mp hnil course hc
        simpa using this
    · intro h
      right
      apply List.filter_eq_nil_iff.mpr
      intro course hc
      simpa using h course hc

/-- C9 (witness): the course-title containment fact applied at the fallback
catalog for the skill Python. -/
theorem C9_witness :
    ((find_courses default_career_roles "Python".data).all
      (fun course => containsSubstr (toLowerL "Python".data) (toLowerL course.title))) = true ∧
    (find_courses default_career_roles "Python".data).length ≤ 3 :=
  ⟨(C9_theorem default_career_roles "Python".data).2.2.1,
   (C9_theorem default_career_roles "Python".data).2.1⟩

theorem levelIdx?_eq_none {x : List Char} (hx : x ∉ levelOrder) : levelIdx? x = none := by
  have h1 : ("Entry".data == x) = false := by
    simp only [beq_eq_false_iff_ne]
    intro h; exact hx (h ▸ by decide)
  have h2 : ("Mid".data == x) = false := by
    simp only [beq_eq_false_iff_ne]
    intro h; exact hx (h ▸ by decide)
  have h3 : ("Senior".data == x) = false := by
    simp only [beq_eq_false_iff_ne]
    intro h; exact hx (h ▸ by decide)
  have h4 : ("Lead".data == x) = false := by
    simp only [beq_eq_false_iff_ne]
    intro h; exact hx (h ▸ by decide)
  simp [levelIdx?, levelOrder, List.findIdx?_cons, h1, h2, h3, h4]

/-- C10: a role admits an experience level iff the level lies between the
role's min and max levels on the fixed ordinal scale Entry < Mid < Senior <
Lead; an experience level outside the scale (such as Expert) never excludes
any role. -/
theorem C10_theorem :
    (∀ (experience min_level max_level : List Char),
      experience ∉ levelOrder → admitsLevel experience min_level max_level = true) ∧
    (∀ (experience : List Char) (r : RoleRecord),
      experience ∉ levelOrder → admitsRole experience r = true) ∧
    (∀ (experience min_level max_level : List Char),
      experience ∈ levelOrder → min_level ∈ levelOrder → max_level ∈ levelOrder →
        (admitsLevel experience min_level max_level = true ↔
          (levelOrder.indexOf min_level ≤ levelOrder.indexOf experience ∧
            levelOrder.indexOf experience ≤ levelOrder.indexOf max_level))) := by
  have hnone : ∀ (experience min_level max_level : List Char), experience ∉ levelOrder →
      admitsLevel experience min_level max_level = true := by
    intro experience min_level max_level hx
    unfold admitsLevel
    rw [levelIdx?_eq_none hx]
  refine ⟨hnone, fun experience r hx => hnone _ _ _ hx, ?_⟩
  intro experience min_level max_level he hmn hmx
  simp only [levelOrder, List.mem_cons, List.not_mem_nil, or_false] at he hmn hmx
  rcases he with rfl | rfl | rfl | rfl <;>
    rcases hmn with rfl | rfl | rfl | rfl <;>
    rcases hmx with rfl | rfl | rfl | rfl <;> decide

/-- C10 (witness): Expert (outside the scale) never excludes a role — in
particular not the fallback Software Engineer role — while Lead is excluded
by an Entry-to-Senior range exactly as the ordinal comparison dictates. -/
theorem C10_witness :
    admitsLevel "Expert".data "Entry".data "Senior".data = true ∧
    admitsRole "Expert".data softwareEngineerRole = true ∧
    (admitsLevel "Lead".data "Entry".data "Senior".data = true ↔
      (levelOrder.indexOf "Entry".data ≤ levelOrder.indexOf "Lead".data ∧
        levelOrder.indexOf "Lead".data ≤ levelOrder.indexOf "Senior".data)) :=
  ⟨C10_theorem.1 "Expert".data "Entry".data "Senior".data (by decide),
   C10_theorem.2.1 "Expert".data softwareEngineerRole (by decide),
   C10_theorem.2.2 "Lead".data "Entry".data "Senior".data (by decide) (by decide) (by decide)⟩
